import Mathlib

/-!
Shallow embedding of the classification profiler in `src/src/bin/cls.rs`.

The Rust program builds two classification trees (a trusted reference and a
candidate), diffs them leaf-path by leaf-path, and aggregates the diff into
accuracy percentages.  Every definition below is translated from the source:

* `FieldMeta`, `ClassiVal`, `ClassiNode`, `ClassiTree`  — the data model
  (`struct FieldMeta`, `enum ClassiVal`, `struct ClassiNode`, `struct ClassiTree`);
* `findNode` / `findNodeList`                           — `ClassiNode::find_node`;
* `addNode` / `addNodeList`                             — `ClassiNode::add_node`
  (in Rust a `&mut self` method; on error the method performs no mutation, so it
  is embedded as returning the updated node on success only);
* `treeAddNode`                                         — `ClassiTree::add_node`
  (this one *does* mutate before failing, so it returns the updated tree in all
  cases, next to the `Result`);
* `collectLeave` / `allLeaves`                          — `ClassiTree::_collect_leave`,
  `ClassiTree::all_leaves`;
* `diffWalk` / `diffPath` / `diff`                      — `ClassiTree::diff`
  (the per-leaf-path loop body is split out as `diffPath` for induction; the
  emitted units and their order are exactly those of the Rust loop);
* `statsFold` / `claussiReport`                         — `claussi_report`
  (`unit.classis[0]` on an empty vector panics; the panic is embedded as `none`.
  The `f64` ratio `match/total` is embedded as `Option ℚ`, with `none` standing
  for the undefined `0.0/0.0` (NaN); all ratios the theorems touch are exact).

File parsing, AES encryption and CLI wiring are out of scope of the claims.
-/

/-- Rust `struct FieldMeta(Database, Table, Field)`. -/
structure FieldMeta where
  db : String
  tb : String
  fd : String
deriving DecidableEq, Repr

/-- Rust `impl Display for FieldMeta`: `"{db}-{tb}-{fd}"`. -/
def fieldMetaStr (f : FieldMeta) : String :=
  f.db ++ "-" ++ f.tb ++ "-" ++ f.fd

/-- Rust `enum ClassiVal { Root, Classi(String), Field(FieldMeta) }`. -/
inductive ClassiVal : Type where
  | root : ClassiVal
  | classi : String → ClassiVal
  | field : FieldMeta → ClassiVal
deriving DecidableEq, Repr

/-- Rust `impl Display for ClassiVal`. -/
def classiValStr : ClassiVal → String
  | .root => "root"
  | .classi s => "classi(" ++ s ++ ")"
  | .field f => "field(" ++ fieldMetaStr f ++ ")"

/-- Tests for a `Field` value. -/
def isFieldVal : ClassiVal → Bool
  | .field _ => true
  | _ => false

/-- Tests for a `Classi` value. -/
def isClassiVal : ClassiVal → Bool
  | .classi _ => true
  | _ => false

/-- Rust `struct ClassiNode { val: ClassiVal, subs: Option<Vec<ClassiNode>> }`. -/
inductive ClassiNode : Type where
  | mk : ClassiVal → Option (List ClassiNode) → ClassiNode

/-- The `val` field of a node. -/
def ClassiNode.val : ClassiNode → ClassiVal
  | .mk v _ => v

/-- The `subs` field of a node. -/
def ClassiNode.subs : ClassiNode → Option (List ClassiNode)
  | .mk _ s => s

/-- A node used only as a `getD`-style default; never part of a tree. -/
def dummyNode : ClassiNode := .mk .root none

mutual

/-- Rust `ClassiNode::find_node`: pre-order depth-first search for the first node
whose value equals `v` (self first, then each child subtree in order). -/
def findNode : ClassiNode → ClassiVal → Option ClassiNode
  | .mk val subs, v =>
    if val = v then some (.mk val subs)
    else
      match subs with
      | some l => findNodeList l v
      | none => none

/-- The `for sub_node in subs { if let Some(n) = ... return ... }` loop of
`find_node`. -/
def findNodeList : List ClassiNode → ClassiVal → Option ClassiNode
  | [], _ => none
  | n :: rest, v =>
    match findNode n v with
    | some r => some r
    | none => findNodeList rest v

end

/-- The duplicate-child scan in `ClassiNode::add_node`:
`for e in subs.iter() { if e.val == *val { ... } }`. -/
def hasChildVal (l : List ClassiNode) (v : ClassiVal) : Bool :=
  l.any fun e => e.val = v

/-- The two `ClassiError` messages produced by `ClassiNode::add_node`:
`"the node exists"` and `"the super node does not found"`. -/
inductive AddErr : Type where
  | nodeExists : AddErr
  | superNodeNotFound : AddErr
deriving DecidableEq, Repr

mutual

/-- Rust `ClassiNode::add_node(&mut self, sup_val, val)`.  In Rust the method
mutates `self` only on the `Ok` path (every `Err` is returned before any
`push`), so it is embedded as returning the updated node on success. -/
def addNode : ClassiNode → ClassiVal → ClassiVal → Except AddErr ClassiNode
  | .mk val subs, supVal, v =>
    if val = supVal then
      match subs with
      | some l =>
        if hasChildVal l v then .error .nodeExists
        else .ok (.mk val (some (l ++ [.mk v none])))
      | none => .ok (.mk val (some [.mk v none]))
    else
      match subs with
      | some l =>
        match addNodeList l supVal v with
        | .ok l' => .ok (.mk val (some l'))
        | .error e => .error e
      | none => .error .superNodeNotFound

/-- The sibling loop of `add_node`: try each child in order; `Ok` stops with
success, `"the node exists"` is returned immediately, `"the super node does
not found"` moves on to the next sibling; if no sibling accepted the insert
the result is `"the super node does not found"`. -/
def addNodeList : List ClassiNode → ClassiVal → ClassiVal → Except AddErr (List ClassiNode)
  | [], _, _ => .error .superNodeNotFound
  | n :: rest, supVal, v =>
    match addNode n supVal v with
    | .ok n' => .ok (n' :: rest)
    | .error .nodeExists => .error .nodeExists
    | .error .superNodeNotFound =>
      match addNodeList rest supVal v with
      | .ok rest' => .ok (n :: rest')
      | .error e => .error e

end

mutual

/-- Indentation unit of `to_string` (Rust `const INDENT: &str = "  "`). -/
def indentStr : String := "  "

/-- Rust `ClassiNode::to_string(space)` (the `Display` rendering helper). -/
def nodeToStr : ClassiNode → Nat → String
  | .mk .root subs, space =>
    match subs with
    | some l => nodesToStr l space
    | none => ""
  | .mk (.classi inner) subs, space =>
    let line := String.join (List.replicate space indentStr) ++ inner ++ "\n"
    match subs with
    | some l => line ++ nodesToStr l (space + 1)
    | none => line
  | .mk (.field dtf) _, space =>
    String.join (List.replicate space indentStr) ++ fieldMetaStr dtf ++ "\n"

/-- The child-concatenation loops of `ClassiNode::to_string`. -/
def nodesToStr : List ClassiNode → Nat → String
  | [], _ => ""
  | n :: rest, space => nodeToStr n space ++ nodesToStr rest space

end

/-- Rust `struct ClassiTree { root: ClassiNode }`. -/
structure ClassiTree where
  root : ClassiNode

/-- Rust `ClassiTree::new()`. -/
def treeNew : ClassiTree := ⟨.mk .root none⟩

/-- Rust `ClassiTree::find_node`. -/
def treeFind (t : ClassiTree) (v : ClassiVal) : Option ClassiNode :=
  findNode t.root v

/-- Rust `impl Display for ClassiTree`: `root.to_string(0).trim()`. -/
def treeString (t : ClassiTree) : String :=
  (nodeToStr t.root 0).trim

/-- The `ClassiError` values produced by `ClassiTree::add_node`:
the two primitive messages plus `"failed to add classification level"` and
`"classification levels must be provided"`. -/
inductive TreeErr : Type where
  | nodeExists : TreeErr
  | superNodeNotFound : TreeErr
  | addLevelFailed : TreeErr
  | noLevels : TreeErr
deriving DecidableEq, Repr

/-- Lift a primitive error into a tree-level error (the message is passed
through unchanged in Rust). -/
def liftErr : AddErr → TreeErr
  | .nodeExists => .nodeExists
  | .superNodeNotFound => .superNodeNotFound

/-- Decidable equality of tree-level insert results. -/
instance : DecidableEq (Except TreeErr Unit) := fun a b =>
  match a, b with
  | .ok (), .ok () => isTrue rfl
  | .ok (), .error _ => isFalse (fun h => Except.noConfusion h)
  | .error _, .ok () => isFalse (fun h => Except.noConfusion h)
  | .error e, .error f =>
    if h : e = f then isTrue (by rw [h]) else isFalse (fun hh => h (by injection hh))

/-- Rust `let _ = self.root.add_node(...)`: perform the insert, keep the updated
root on success and ignore the error (no mutation happened) otherwise. -/
def ignoreAdd (t : ClassiTree) (supVal v : ClassiVal) : ClassiTree :=
  match addNode t.root supVal v with
  | .ok r => ⟨r⟩
  | .error _ => t

/-- The `for win in classis.windows(2)` loop of `ClassiTree::add_node`:
`Ok` and `"the node exists"` continue, anything else aborts with
`"failed to add classification level"`.  The tree mutated so far is returned
in both cases (in Rust the mutation is in place). -/
def addLevels : ClassiTree → List (String × String) → Option TreeErr × ClassiTree
  | t, [] => (none, t)
  | t, (a, b) :: rest =>
    match addNode t.root (.classi a) (.classi b) with
    | .ok r => addLevels ⟨r⟩ rest
    | .error .nodeExists => addLevels t rest
    | .error .superNodeNotFound => (some .addLevelFailed, t)

/-- Rust `ClassiTree::add_node(&mut self, classis, field)`.  Since the Rust method
mutates `self` in place even on paths that end in `Err`, the embedding returns
the updated tree next to the result. -/
def treeAddNode (t : ClassiTree) (classis : List String) (field : FieldMeta) :
    Except TreeErr Unit × ClassiTree :=
  match classis with
  | [] => (.error .noLevels, t)
  | [c0] =>
    let t1 := ignoreAdd t .root (.classi c0)
    match addNode t1.root (.classi c0) (.field field) with
    | .ok r => (.ok (), ⟨r⟩)
    | .error e => (.error (liftErr e), t1)
  | c0 :: c1 :: rest =>
    let t1 := ignoreAdd t .root (.classi c0)
    match addLevels t1 ((c0 :: c1 :: rest).zip (c1 :: rest)) with
    | (some e, t2) => (.error e, t2)
    | (none, t2) =>
      match addNode t2.root (.classi ((c0 :: c1 :: rest).getLastD c0)) (.field field) with
      | .ok r => (.ok (), ⟨r⟩)
      | .error e => (.error (liftErr e), t2)

/-- The row loop of `read_classi_result`, restricted to the tree it builds:
each row `(classification path, field identity)` is inserted in order.
(The result of each insert is propagated by `?` in Rust; the false branches of
the claims only use rows on which every insert succeeds, which the concrete
theorems check separately.) -/
def buildRows (rows : List (List String × FieldMeta)) : ClassiTree :=
  rows.foldl (fun t row => (treeAddNode t row.1 row.2).2) treeNew

mutual

/-- Rust `ClassiTree::_collect_leave(node, cur_q, res)`: push `node`; if it has a
`subs` vector, recurse into each child (and pop), otherwise record the current
queue as a finished leaf path.  The embedding passes the queue functionally
and returns the recorded paths. -/
def collectLeave : ClassiNode → List ClassiNode → List (List ClassiNode)
  | .mk val subs, curQ =>
    let q := curQ ++ [.mk val subs]
    match subs with
    | some l => collectLeaveList l q
    | none => [q]

/-- The `for sub in subs` loop of `_collect_leave`. -/
def collectLeaveList : List ClassiNode → List ClassiNode → List (List ClassiNode)
  | [], _ => []
  | n :: rest, q => collectLeave n q ++ collectLeaveList rest q

end

/-- Rust `ClassiTree::all_leaves()`: run `_collect_leave` from each top-level child
of `Root` with a cleared queue. -/
def allLeaves (t : ClassiTree) : List (List ClassiNode) :=
  match t.root.subs with
  | some l => l.flatMap fun sub => collectLeave sub []
  | none => []

/-- Rust `struct DiffUnit { classis, field, field_exist }`. -/
structure DiffUnit where
  classis : List String
  field : String
  field_exist : Bool
deriving DecidableEq, Repr

/-- The label a node contributes to the unmatched unit's `classis` vector:
`Classi(classi) => classi.clone(), _ => String::new()`. -/
def labelOf (n : ClassiNode) : String :=
  match n.val with
  | .classi c => c
  | _ => ""

/-- The `DiffUnit` pushed when a leaf path had at least one miss: its
`classis` maps *every* segment of the path through `labelOf` (the leaf
segment therefore contributes an empty string), its `field` renders the last
node's value through the `ClassiVal` `Display`. -/
def missUnit (path : List ClassiNode) : DiffUnit :=
  { classis := path.map labelOf
    field := classiValStr (path.getLastD dummyNode).val
    field_exist := false }

/-- The `for seg in &field` loop body of `ClassiTree::diff`, walking the
segments of one leaf path with the accumulator `t_q` and the `is_found` flag.
Returns the matched units pushed during the walk (in push order), the final
`t_q` and the final `is_found`. -/
def diffWalk (cand : ClassiTree) :
    List ClassiNode → List String → Bool → List DiffUnit × List String × Bool
  | [], tq, found => ([], tq, found)
  | seg :: rest, tq, found =>
    match findNode cand.root seg.val with
    | some m =>
      match m.val with
      | .classi c => diffWalk cand rest (tq ++ [c]) found
      | .field f =>
        let r := diffWalk cand rest tq found
        (⟨tq, fieldMetaStr f, true⟩ :: r.1, r.2)
      | .root => diffWalk cand rest tq found
    | none => diffWalk cand rest tq false

/-- One iteration of the outer `for field in all_fields` loop of `diff`:
the matched units pushed during the walk, followed by the single unmatched
unit when `is_found` ended up `false`. -/
def diffPath (cand : ClassiTree) (path : List ClassiNode) : List DiffUnit :=
  let r := diffWalk cand path [] true
  r.1 ++ (if r.2.2 then [] else [missUnit path])

/-- Rust `ClassiTree::diff(&self, other)`: concatenate the units of every leaf
path of `self` (the reference), probed against `other` (the candidate). -/
def diff (t other : ClassiTree) : List DiffUnit :=
  (allLeaves t).flatMap (diffPath other)

/-- Rust `HashMap::entry(..).and_modify(..).or_insert(..)` on
`group_statistic : HashMap<String,(i32,i32)>`, embedded as an association
list in first-insertion order (the map's *contents*; its iteration order is
a separate concern, see the claim about output-order stability). -/
def updateGroup : List (String × Int × Int) → String → Int → List (String × Int × Int)
  | [], c, cal => [(c, 1, cal)]
  | (k, tot, m) :: rest, c, cal =>
    if k = c then (k, tot + 1, m + cal) :: rest
    else (k, tot, m) :: updateGroup rest c cal

/-- The `for unit in r` loop of `claussi_report`: accumulates `match_classi`
and `group_statistic`.  `unit.classis[0]` on an empty vector panics
(index out of bounds); the panic is embedded as `none`. -/
def statsFold : List DiffUnit → Int → List (String × Int × Int) →
    Option (Int × List (String × Int × Int))
  | [], m, g => some (m, g)
  | u :: rest, m, g =>
    match u.classis with
    | [] => none
    | c :: _ =>
      let cal : Int := if u.field_exist then 1 else 0
      statsFold rest (m + cal) (updateGroup g c cal)

/-- The numbers `claussi_report` prints.  `overallPct` is
`match_classi / total * 100`; the Rust `f64` quotient `0.0/0.0` (NaN, when
the diff result is empty) is embedded as `none`. -/
structure ScoreReport where
  total : Int
  matched : Int
  overallPct : Option ℚ
  groups : List (String × Int × Int)
deriving DecidableEq, Repr

/-- Rust `claussi_report(r)`, up to printing: `none` when the loop panics on a
unit with an empty `classis` vector, otherwise the computed numbers. -/
def claussiReport (r : List DiffUnit) : Option ScoreReport :=
  (statsFold r 0 []).map fun mg =>
    { total := (r.length : Int)
      matched := mg.1
      overallPct :=
        if r.length = 0 then none
        else some ((mg.1 : ℚ) / (r.length : ℚ) * 100)
      groups := mg.2 }

/-- The contents of `group_statistic` for a diff result (empty when the
report panics). -/
def reportGroups (r : List DiffUnit) : List (String × Int × Int) :=
  match claussiReport r with
  | some rep => rep.groups
  | none => []

/-- One printed per-category line, as (category, percentage): the loop body
`println!("classification [{}] accuracy: {:.2}%", k, v.1 / v.0 * 100)`,
applied to the map entries in the order `enum` the `HashMap` yields them. -/
def categoryLines (enum : List (String × Int × Int)) : List (String × ℚ) :=
  enum.map fun e => (e.1, (e.2.2 : ℚ) / (e.2.1 : ℚ) * 100)

/-! ## Derived predicates used by the statements -/

/-- A segment of a reference leaf path counts as found when `find` on the
candidate succeeds for its value (the `None => is_found = false` arm of
`diff`). -/
def segFound (cand : ClassiTree) (n : ClassiNode) : Bool :=
  (findNode cand.root n.val).isSome

/-- The probe of a segment lands in the `ClassiVal::Field` arm of `diff`
(a matched unit is pushed). -/
def resolvesToField (cand : ClassiTree) (n : ClassiNode) : Bool :=
  match findNode cand.root n.val with
  | some m => isFieldVal m.val
  | none => false

/-- The probe of a segment lands in the `ClassiVal::Classi` arm of `diff`
(its label is appended to the `t_q` accumulator). -/
def resolvesToClassi (cand : ClassiTree) (n : ClassiNode) : Bool :=
  match findNode cand.root n.val with
  | some m => isClassiVal m.val
  | none => false

/-- Whether the (optional) node returned by `find` already has a direct child
holding value `v` — the condition behind the `"the node exists"` error. -/
def optHasChild (o : Option ClassiNode) (v : ClassiVal) : Bool :=
  match o with
  | some (.mk _ (some l)) => hasChildVal l v
  | some (.mk _ none) => false
  | none => false

/-- Collapse an `add_node` outcome to what decides the claims: `some true`
for `"the node exists"`, `some false` for success, `none` for
`"the super node does not found"`.  (Payload-insensitive.) -/
def addResult : Except AddErr α → Option Bool
  | .ok _ => some false
  | .error .nodeExists => some true
  | .error .superNodeNotFound => none

/-! ## Concrete inputs used by the counterexamples and witnesses -/

/-- The worked example's field `(db1,t1,f1)`. -/
def fm1 : FieldMeta := ⟨"db1", "t1", "f1"⟩

/-- The worked example's field `(db1,t1,f2)`. -/
def fm2 : FieldMeta := ⟨"db1", "t1", "f2"⟩

/-- An unrelated field `(db2,t2,g1)`. -/
def fmG : FieldMeta := ⟨"db2", "t2", "g1"⟩

/-- Reference tree of the worked example: rows `("A","B")→fm1, ("A","C")→fm2`. -/
def refW : ClassiTree := buildRows [(["A", "B"], fm1), (["A", "C"], fm2)]

/-- Candidate tree of the worked example: single row `("A","B")→fm1`. -/
def candW : ClassiTree := buildRows [(["A", "B"], fm1)]

/-- Reference with one leaf under path `A/B`. -/
def refAB : ClassiTree := buildRows [(["A", "B"], fm1)]

/-- Candidate holding the same field value but under the single level `A`. -/
def candA : ClassiTree := buildRows [(["A"], fm1)]

/-- Reference built from the row `("A","A")→fm1`: the repeated label leaves a
childless `Classi("A")` node, so one enumerated "leaf" path ends in a
classification node. -/
def refAA : ClassiTree := buildRows [(["A", "A"], fm1)]

/-- Candidate containing the label `A` but neither `fm1` nor a second `A`. -/
def candAG : ClassiTree := buildRows [(["A"], fmG)]

/-- Reference with one leaf `fm1` under the single level `A`. -/
def refA1 : ClassiTree := buildRows [(["A"], fm1)]

/-- Candidate holding `fm1` under the unrelated label `X`: the field value is
present but no classification label of the reference resolves. -/
def candX1 : ClassiTree := buildRows [(["X"], fm1)]

/-- Candidate sharing no value at all with `refA1`. -/
def candBG : ClassiTree := buildRows [(["B"], fmG)]

/-- The leaf node `fm1` as it occurs in `refA1`. -/
def leafA1 : ClassiNode := .mk (.field fm1) none

/-- The top-level node of `refA1`. -/
def nodeA1 : ClassiNode := .mk (.classi ("A")) (some [leafA1])

/-- A node with value `Classi("A")` that has a direct child `Classi("B")` —
the second, later-in-pre-order match for `Classi("A")` inside `nodeC5`. -/
def innerC5 : ClassiNode := .mk (.classi ("A")) (some [.mk (.classi ("B")) none])

/-- A tree whose first pre-order match for `Classi("A")` has no child `B`,
while a second match (`innerC5`, under `P`) already has one.  Sibling values
are pairwise distinct, as the tree invariants require. -/
def nodeC5 : ClassiNode :=
  .mk .root (some [.mk (.classi ("A")) none, .mk (.classi ("P")) (some [innerC5])])

/-- The classification path used by the re-insertion counterexample. -/
def pathC6 : List String := ["A", "B", "C", "A", "D"]

/-- Starting tree for the re-insertion counterexample, built from the row
`("C","E")→fmG`. -/
def treeC6 : ClassiTree := buildRows [(["C", "E"], fmG)]

/-- First insertion of `(pathC6, fm1)` — succeeds. -/
def insert1C6 : Except TreeErr Unit × ClassiTree := treeAddNode treeC6 pathC6 fm1

/-- Second, identical insertion — returns `NodeExists` but still mutates. -/
def insert2C6 : Except TreeErr Unit × ClassiTree := treeAddNode insert1C6.2 pathC6 fm1

/-- A diff result with two distinct top-level categories. -/
def unitsC8 : List DiffUnit := [⟨["A"], "x", true⟩, ⟨["B"], "y", false⟩]

/-- A leaf path of the shape `all_leaves` produces on trees without repeated
labels: classification segments followed by one final `Field` segment.
(Empty paths are excluded automatically: the default node is not a field.) -/
def wellPath (P : List ClassiNode) : Bool :=
  (P.dropLast.all fun n => isClassiVal n.val) && isFieldVal (P.getLastD dummyNode).val

/-! ## A mutual induction principle for the nested node type -/

mutual

theorem classiNodeInd (P : ClassiNode → Prop) (Q : List ClassiNode → Prop)
    (hsome : ∀ v l, Q l → P (.mk v (some l))) (hnone : ∀ v, P (.mk v none))
    (hnil : Q []) (hcons : ∀ n rest, P n → Q rest → Q (n :: rest)) :
    ∀ n : ClassiNode, P n
  | .mk v (some l) => hsome v l (classiListInd P Q hsome hnone hnil hcons l)
  | .mk v none => hnone v

theorem classiListInd (P : ClassiNode → Prop) (Q : List ClassiNode → Prop)
    (hsome : ∀ v l, Q l → P (.mk v (some l))) (hnone : ∀ v, P (.mk v none))
    (hnil : Q []) (hcons : ∀ n rest, P n → Q rest → Q (n :: rest)) :
    ∀ l : List ClassiNode, Q l
  | [] => hnil
  | n :: rest =>
    hcons n rest (classiNodeInd P Q hsome hnone hnil hcons n)
      (classiListInd P Q hsome hnone hnil hcons rest)

end

/-! ## `find_node` returns a node holding the searched value -/

theorem findNode_val_pair :
    (∀ n : ClassiNode, ∀ v m, findNode n v = some m → m.val = v) ∧
    (∀ l : List ClassiNode, ∀ v m, findNodeList l v = some m → m.val = v) := by
  refine ⟨classiNodeInd _ (fun l => ∀ v m, findNodeList l v = some m → m.val = v)
      ?_ ?_ ?_ ?_,
    classiListInd (fun n => ∀ v m, findNode n v = some m → m.val = v) _
      ?_ ?_ ?_ ?_⟩ <;>
  first
  | -- the `some l` node case
    (intro val l ih v m h
     by_cases hv : val = v
     · simp only [findNode, if_pos hv] at h
       cases h
       simpa [ClassiNode.val] using hv
     · simp only [findNode, if_neg hv] at h
       exact ih v m h)
  | -- the `none` node case
    (intro val v m h
     by_cases hv : val = v
     · simp only [findNode, if_pos hv] at h
       cases h
       simpa [ClassiNode.val] using hv
     · simp only [findNode, if_neg hv] at h
       cases h)
  | -- the `[]` list case
    (intro v m h; cases h)
  | -- the `cons` list case
    (intro n rest ihn ihr v m h
     simp only [findNodeList] at h
     cases hf : findNode n v with
     | some r => rw [hf] at h; cases h; exact ihn v m hf
     | none => rw [hf] at h; exact ihr v m h)

/-- Lemma: `find_node` only ever returns a node whose value is the searched one. -/
theorem findNode_val (n : ClassiNode) (v : ClassiVal) (m : ClassiNode)
    (h : findNode n v = some m) : m.val = v :=
  findNode_val_pair.1 n v m h

/-! ## Characterisation of `add_node` by `find_node` -/

/-- Discharges the `some`-children node case of `addNode_spec_pair`. -/
theorem addNode_spec_some (val : ClassiVal) (l : List ClassiNode)
    (ih : ∀ sup v, addResult (addNodeList l sup v)
      = (findNodeList l sup).map fun m => optHasChild (some m) v)
    (sup v : ClassiVal) :
    addResult (addNode (.mk val (some l)) sup v)
      = (findNode (.mk val (some l)) sup).map fun m => optHasChild (some m) v := by
  by_cases hv : val = sup
  · cases hc : hasChildVal l v <;>
      simp [addNode, findNode, hv, hc, addResult, optHasChild]
  · have hpass : addResult (addNode (.mk val (some l)) sup v)
        = addResult (addNodeList l sup v) := by
      cases hA : addNodeList l sup v with
      | ok l' => simp [addNode, hv, hA, addResult]
      | error e => cases e <;> simp [addNode, hv, hA, addResult]
    rw [hpass, ih]
    simp [findNode, hv]

/-- Discharges the `cons` list case of `addNode_spec_pair`. -/
theorem addNode_spec_cons (n : ClassiNode) (rest : List ClassiNode)
    (ihn : ∀ sup v, addResult (addNode n sup v)
      = (findNode n sup).map fun m => optHasChild (some m) v)
    (ihr : ∀ sup v, addResult (addNodeList rest sup v)
      = (findNodeList rest sup).map fun m => optHasChild (some m) v)
    (sup v : ClassiVal) :
    addResult (addNodeList (n :: rest) sup v)
      = (findNodeList (n :: rest) sup).map fun m => optHasChild (some m) v := by
  have hn := ihn sup v
  cases hA : addNode n sup v with
  | ok n' =>
    rw [hA] at hn
    cases hF : findNode n sup with
    | none => rw [hF] at hn; simp [addResult] at hn
    | some m =>
      rw [hF] at hn
      simp only [addResult, Option.map_some'] at hn
      simp [addNodeList, findNodeList, hA, hF, addResult, ← hn]
  | error e =>
    cases e with
    | nodeExists =>
      rw [hA] at hn
      cases hF : findNode n sup with
      | none => rw [hF] at hn; simp [addResult] at hn
      | some m =>
        rw [hF] at hn
        simp only [addResult, Option.map_some'] at hn
        simp [addNodeList, findNodeList, hA, hF, addResult, ← hn]
    | superNodeNotFound =>
      rw [hA] at hn
      cases hF : findNode n sup with
      | some m => rw [hF] at hn; simp [addResult] at hn
      | none =>
        have hpass : addResult (addNodeList (n :: rest) sup v)
            = addResult (addNodeList rest sup v) := by
          cases hR : addNodeList rest sup v with
          | ok rest' => simp [addNodeList, hA, hR, addResult]
          | error e' => cases e' <;> simp [addNodeList, hA, hR, addResult]
        rw [hpass, ihr]
        simp [findNodeList, hF]

theorem addNode_spec_pair :
    (∀ n : ClassiNode, ∀ sup v, addResult (addNode n sup v)
      = (findNode n sup).map fun m => optHasChild (some m) v) ∧
    (∀ l : List ClassiNode, ∀ sup v, addResult (addNodeList l sup v)
      = (findNodeList l sup).map fun m => optHasChild (some m) v) := by
  constructor
  · refine classiNodeInd _
      (fun l => ∀ sup v, addResult (addNodeList l sup v)
        = (findNodeList l sup).map fun m => optHasChild (some m) v) ?_ ?_ ?_ ?_
    · exact addNode_spec_some
    · intro val sup v
      by_cases hv : val = sup <;>
        simp [addNode, findNode, hv, addResult, optHasChild]
    · intro sup v
      simp [addNodeList, findNodeList, addResult]
    · exact addNode_spec_cons
  · refine classiListInd
      (fun n => ∀ sup v, addResult (addNode n sup v)
        = (findNode n sup).map fun m => optHasChild (some m) v) _ ?_ ?_ ?_ ?_
    · exact addNode_spec_some
    · intro val sup v
      by_cases hv : val = sup <;>
        simp [addNode, findNode, hv, addResult, optHasChild]
    · intro sup v
      simp [addNodeList, findNodeList, addResult]
    · exact addNode_spec_cons

/-- The outcome of `add(superValue, value)` is decided entirely by the first
pre-order node matching `superValue`, i.e. by what `find_node` returns. -/
theorem addNode_spec (n : ClassiNode) (sup v : ClassiVal) :
    addResult (addNode n sup v) = (findNode n sup).map fun m => optHasChild (some m) v :=
  addNode_spec_pair.1 n sup v

/-! ## Claim C5 -/

/-- C5 (counterexample).  The claim reads `NodeExists` as raised whenever the
value is already a direct child of *a* node matching `superValue`.  In
`nodeC5`, `innerC5` matches `Classi("A")` and already has the direct child
`Classi("B")`, yet `add(Classi("A"), Classi("B"))` succeeds, because the
*first* pre-order match for `Classi("A")` (the root's first child) has no
child `B` and receives the insert. -/
theorem add_node_ok_despite_existing_child :
    (addNode nodeC5 (.classi ("A")) (.classi ("B"))).isOk = true
      ∧ innerC5.val = ClassiVal.classi ("A")
      ∧ hasChildVal (innerC5.subs.getD []) (.classi ("B")) = true := by
  decide

/-- C5 (amended).  `add(superValue, value)` is decided entirely by the first
pre-order node whose value equals `superValue`, i.e. by `find_node`:
it returns `NodeExists` iff that first match already has `value` as a direct
child (aborting the whole attempt, so later sibling branches are never
consulted even if they could accept the insert); it returns
`SuperNodeNotFound` iff no node anywhere in the tree has value `superValue`
(the error that surfaces only after every branch is exhausted); and it
succeeds iff the first match exists and lacks the child. -/
theorem add_node_first_match_characterization (n : ClassiNode) (sup v : ClassiVal) :
    (addNode n sup v = .error .nodeExists ↔ optHasChild (findNode n sup) v = true) ∧
    (addNode n sup v = .error .superNodeNotFound ↔ findNode n sup = none) ∧
    ((addNode n sup v).isOk = true ↔
      ((findNode n sup).isSome = true ∧ optHasChild (findNode n sup) v = false)) := by
  have h := addNode_spec n sup v
  cases hA : addNode n sup v with
  | ok n' =>
    rw [hA] at h
    cases hF : findNode n sup with
    | none => rw [hF] at h; simp [addResult] at h
    | some m =>
      rw [hF] at h
      simp only [addResult, Option.map_some'] at h
      have h' : optHasChild (some m) v = false := (Option.some_inj.mp h).symm
      simp [hA, hF, h', Except.isOk, Except.toBool]
  | error e =>
    rw [hA] at h
    cases e with
    | nodeExists =>
      cases hF : findNode n sup with
      | none => rw [hF] at h; simp [addResult] at h
      | some m =>
        rw [hF] at h
        simp only [addResult, Option.map_some'] at h
        have h' : optHasChild (some m) v = true := (Option.some_inj.mp h).symm
        simp [hA, hF, h', Except.isOk, Except.toBool]
    | superNodeNotFound =>
      cases hF : findNode n sup with
      | some m => rw [hF] at h; simp [addResult] at h
      | none => simp [hA, hF, optHasChild, Except.isOk, Except.toBool]

/-! ## Properties of the per-path walk of `diff` -/

/-- Every unit pushed *during* the walk is a matched one (`field_exist = true`);
the unmatched unit is only appended after the walk. -/
theorem diffWalk_units_exist (cand : ClassiTree) :
    ∀ (P : List ClassiNode) (tq : List String) (b : Bool),
      ∀ u ∈ (diffWalk cand P tq b).1, u.field_exist = true := by
  intro P
  induction P with
  | nil => intro tq b u hu; simp [diffWalk] at hu
  | cons seg rest ih =>
    intro tq b u hu
    cases hF : findNode cand.root seg.val with
    | some m =>
      cases hv : m.val with
      | classi c => simp only [diffWalk, hF, hv] at hu; exact ih _ _ u hu
      | field f =>
        simp only [diffWalk, hF, hv, List.mem_cons] at hu
        rcases hu with rfl | hu
        · rfl
        · exact ih _ _ u hu
      | root => simp only [diffWalk, hF, hv] at hu; exact ih _ _ u hu
    | none => simp only [diffWalk, hF] at hu; exact ih _ _ u hu

/-- The final `is_found` flag is the conjunction of the incoming flag with
"every segment of the path is found in the candidate". -/
theorem diffWalk_found (cand : ClassiTree) :
    ∀ (P : List ClassiNode) (tq : List String) (b : Bool),
      (diffWalk cand P tq b).2.2 = (b && P.all fun n => segFound cand n) := by
  intro P
  induction P with
  | nil => intro tq b; simp [diffWalk]
  | cons seg rest ih =>
    intro tq b
    cases hF : findNode cand.root seg.val with
    | some m =>
      have hsf : segFound cand seg = true := by simp [segFound, hF]
      cases hv : m.val with
      | classi c => simp [diffWalk, hF, hv, ih, hsf, Bool.and_assoc]
      | field f => simp [diffWalk, hF, hv, ih, hsf, Bool.and_assoc]
      | root => simp [diffWalk, hF, hv, ih, hsf, Bool.and_assoc]
    | none =>
      have hsf : segFound cand seg = false := by simp [segFound, hF]
      simp [diffWalk, hF, ih, hsf]

/-- The number of matched units pushed during the walk equals the number of
segments whose probe lands in the `Field` arm. -/
theorem diffWalk_length (cand : ClassiTree) :
    ∀ (P : List ClassiNode) (tq : List String) (b : Bool),
      (diffWalk cand P tq b).1.length = P.countP fun n => resolvesToField cand n := by
  intro P
  induction P with
  | nil => intro tq b; simp [diffWalk]
  | cons seg rest ih =>
    intro tq b
    cases hF : findNode cand.root seg.val with
    | some m =>
      cases hv : m.val with
      | classi c =>
        have hr : resolvesToField cand seg = false := by
          simp [resolvesToField, hF, hv, isFieldVal]
        simp [diffWalk, hF, hv, ih, List.countP_cons, hr]
      | field f =>
        have hr : resolvesToField cand seg = true := by
          simp [resolvesToField, hF, hv, isFieldVal]
        simp [diffWalk, hF, hv, ih, List.countP_cons, hr]
      | root =>
        have hr : resolvesToField cand seg = false := by
          simp [resolvesToField, hF, hv, isFieldVal]
        simp [diffWalk, hF, hv, ih, List.countP_cons, hr]
    | none =>
      have hr : resolvesToField cand seg = false := by
        simp [resolvesToField, hF]
      simp [diffWalk, hF, ih, List.countP_cons, hr]

/-- Exact unit count for one leaf path: one matched unit per `Field`-resolving
segment, plus one unmatched unit when some segment is missing. -/
theorem diffPath_length (cand : ClassiTree) (P : List ClassiNode) :
    (diffPath cand P).length
      = (P.countP fun n => resolvesToField cand n)
        + (if P.all (fun n => segFound cand n) then 0 else 1) := by
  unfold diffPath
  rw [List.length_append, diffWalk_length, diffWalk_found]
  cases hall : P.all fun n => segFound cand n <;> simp [hall]

/-- Length of a `flatMap` as a sum of the per-element lengths. -/
theorem length_flatMap_sum {α β : Type} (l : List α) (f : α → List β) :
    (l.flatMap f).length = (l.map fun x => (f x).length).sum := by
  induction l with
  | nil => simp
  | cons a t ih => simp [List.flatMap_cons, ih]

/-! ## Claim C1 -/

/-- C1 (counterexample).  `diff` does *not* always emit exactly one unit per
reference leaf: with reference row `("A","B")→fm1` and candidate row
`("A")→fm1`, the single leaf path misses segment `B` but its field value is
found, so both a matched and an unmatched unit are emitted — 2 units for 1
leaf. -/
theorem diff_length_ne_leaf_count :
    (allLeaves refAB).length = 1 ∧ (diff refAB candA).length = 2 ∧
      (diff refAB candA).length ≠ (allLeaves refAB).length := by
  decide

/-- C1 (amended).  The length of `diff(reference, candidate)` equals the sum,
over the reference's enumerated leaf paths, of the number of segments that
resolve to a `Field` node in the candidate plus one if any segment of the
path is missing from the candidate.  (It equals the number of leaves only
when every path contributes exactly one of the two; it can be larger — a path
whose field value is present while a label is missing contributes two units —
or smaller — a path ending in a childless classification node whose segments
are all present contributes none.) -/
theorem diff_length_formula (ref cand : ClassiTree) :
    (diff ref cand).length
      = ((allLeaves ref).map fun P =>
          (P.countP fun n => resolvesToField cand n)
            + (if P.all (fun n => segFound cand n) then 0 else 1)).sum := by
  unfold diff
  rw [length_flatMap_sum]
  simp only [diffPath_length]

/-! ## Claim C2 -/

/-- C2 (counterexample).  With reference row `("A")→fm1` and a candidate
sharing no value, the single unmatched unit's path is `["A", ""]` — the
reference's classification label *plus a trailing empty string* contributed
by the leaf segment (`_ => String::new()` in the `map` over the whole path) —
not `["A"]` as the claim states. -/
theorem unmatched_unit_trailing_empty :
    ((diff refA1 candBG).map fun u => u.classis) = [["A", ""]] ∧
      ((diff refA1 candBG).map fun u => u.classis) ≠ [["A"]] := by
  decide

/-- C2 (amended).  If at least one segment of a leaf path is not found in the
candidate, exactly one unmatched unit is emitted for that path; its `classis`
is the whole path mapped through `labelOf` — the reference's classification
labels followed by one empty string for the (non-`Classi`) leaf segment — and
its `field` is the rendered value of the path's last node. -/
theorem unmatched_unit_labels (cand : ClassiTree) (P : List ClassiNode)
    (h : P.all (fun n => segFound cand n) = false) :
    (diffPath cand P).filter (fun u => !u.field_exist)
      = [⟨P.map labelOf, classiValStr (P.getLastD dummyNode).val, false⟩] := by
  have hmiss : (diffWalk cand P [] true).2.2 = false := by
    rw [diffWalk_found]; simp [h]
  unfold diffPath
  rw [List.filter_append]
  have h1 : (diffWalk cand P [] true).1.filter (fun u => !u.field_exist) = [] := by
    rw [List.filter_eq_nil_iff]
    intro u hu
    have := diffWalk_units_exist cand P [] true u hu
    simp [this]
  rw [h1, hmiss]
  simp [missUnit]

/-- C2 (witness): the amended statement evaluated on the concrete reference
leaf path `A → fm1` against a candidate containing neither value. -/
theorem unmatched_unit_labels_witness :
    (diffPath candBG [nodeA1, leafA1]).filter (fun u => !u.field_exist)
      = [⟨["A", ""], "field(db1-t1-f1)", false⟩] := by
  have h := unmatched_unit_labels candBG [nodeA1, leafA1] (by decide)
  rw [h]
  rfl

/-! ## Claim C3 -/

/-- C3 (counterexample).  On an empty diff result `claussi_report` does *not*
fail: it returns successfully (`isSome`), and the overall accuracy it prints
is the undefined quotient `0.0/0.0` (NaN, embedded as `none`). -/
theorem report_empty_no_error :
    (claussiReport []).isSome = true ∧
      ((claussiReport []).map fun rep => rep.overallPct) = some none := by
  decide

/-- C3 (amended).  Given zero diff units the aggregator succeeds with
`totalCount = 0`, `matchedCount = 0`, an undefined overall percentage
(`0.0/0.0`, printed as NaN) and no per-category entries; there is no
`EmptyScoreSet` error in the code. -/
theorem report_empty_succeeds_nan :
    claussiReport [] = some ⟨0, 0, none, []⟩ := by
  decide

/-! ## Claim C4 -/

/-- Shape of the paths produced by `_collect_leave`: each recorded path
extends the incoming queue with the visited node, and its last node has no
`subs` vector (the `None` branch is the only one that records). -/
theorem collectLeave_shape_pair :
    (∀ n : ClassiNode, ∀ q P, P ∈ collectLeave n q →
        (∃ rest, P = q ++ n :: rest) ∧ (P.getLastD dummyNode).subs = none) ∧
    (∀ l : List ClassiNode, ∀ q P, P ∈ collectLeaveList l q →
        (∃ rest, P = q ++ rest) ∧ (P.getLastD dummyNode).subs = none) := by
  have hsome : ∀ (v : ClassiVal) (l : List ClassiNode),
      (∀ q P, P ∈ collectLeaveList l q →
        (∃ rest, P = q ++ rest) ∧ (P.getLastD dummyNode).subs = none) →
      ∀ q P, P ∈ collectLeave (.mk v (some l)) q →
        (∃ rest, P = q ++ ClassiNode.mk v (some l) :: rest) ∧
          (P.getLastD dummyNode).subs = none := by
    intro v l ih q P hP
    simp only [collectLeave] at hP
    obtain ⟨⟨rest, hrest⟩, hlast⟩ := ih (q ++ [.mk v (some l)]) P hP
    exact ⟨⟨rest, by simp [hrest]⟩, hlast⟩
  have hnone : ∀ (v : ClassiVal), ∀ q P, P ∈ collectLeave (.mk v none) q →
      (∃ rest, P = q ++ ClassiNode.mk v none :: rest) ∧
        (P.getLastD dummyNode).subs = none := by
    intro v q P hP
    simp only [collectLeave, List.mem_singleton] at hP
    subst hP
    refine ⟨⟨[], rfl⟩, ?_⟩
    rw [List.getLastD_concat]
    rfl
  have hnil : ∀ q P, P ∈ collectLeaveList [] q →
      (∃ rest, P = q ++ rest) ∧ (P.getLastD dummyNode).subs = none := by
    intro q P hP
    simp [collectLeaveList] at hP
  have hcons : ∀ (n : ClassiNode) (t : List ClassiNode),
      (∀ q P, P ∈ collectLeave n q →
        (∃ rest, P = q ++ n :: rest) ∧ (P.getLastD dummyNode).subs = none) →
      (∀ q P, P ∈ collectLeaveList t q →
        (∃ rest, P = q ++ rest) ∧ (P.getLastD dummyNode).subs = none) →
      ∀ q P, P ∈ collectLeaveList (n :: t) q →
        (∃ rest, P = q ++ rest) ∧ (P.getLastD dummyNode).subs = none := by
    intro n t ihn iht q P hP
    simp only [collectLeaveList, List.mem_append] at hP
    rcases hP with hP | hP
    · obtain ⟨⟨rest, hrest⟩, hlast⟩ := ihn q P hP
      exact ⟨⟨n :: rest, hrest⟩, hlast⟩
    · exact iht q P hP
  refine ⟨?_, ?_⟩
  · exact classiNodeInd
      (fun n => ∀ q P, P ∈ collectLeave n q →
        (∃ rest, P = q ++ n :: rest) ∧ (P.getLastD dummyNode).subs = none)
      (fun l => ∀ q P, P ∈ collectLeaveList l q →
        (∃ rest, P = q ++ rest) ∧ (P.getLastD dummyNode).subs = none)
      hsome hnone hnil hcons
  · exact classiListInd
      (fun n => ∀ q P, P ∈ collectLeave n q →
        (∃ rest, P = q ++ n :: rest) ∧ (P.getLastD dummyNode).subs = none)
      (fun l => ∀ q P, P ∈ collectLeaveList l q →
        (∃ rest, P = q ++ rest) ∧ (P.getLastD dummyNode).subs = none)
      hsome hnone hnil hcons

/-- C4 (counterexample).  In the tree built from the single row
`("A","A")→fm1`, `all_leaves` enumerates two paths
and the first one ends in the childless `Classi("A")` node (the insert
itself succeeds) — a Classification value, not a Leaf — so
"the last node of every enumerated path holds a Leaf value" is false. -/
theorem leaf_path_last_not_field :
    (treeAddNode treeNew ["A", "A"] fm1).1 = .ok () ∧
      ((allLeaves refAA).map fun P => isFieldVal (P.getLastD dummyNode).val)
        = [false, true] ∧
      (((allLeaves refAA).headD []).getLastD dummyNode).val
        = ClassiVal.classi ("A") := by
  decide

/-- C4 (amended).  Every path enumerated by `all_leaves` is non-empty, starts
at a top-level child of `Root`, and ends at a node *with no children*; that
final node holds a Leaf value in the usual case but may hold a childless
Classification value when a label repeats along an inserted path. -/
theorem leaf_paths_end_childless (t : ClassiTree) (P : List ClassiNode)
    (h : P ∈ allLeaves t) :
    P ≠ [] ∧ (P.getLastD dummyNode).subs = none
      ∧ P.headD dummyNode ∈ t.root.subs.getD [] := by
  unfold allLeaves at h
  cases hs : t.root.subs with
  | none => rw [hs] at h; cases h
  | some l =>
    rw [hs] at h
    rw [List.mem_flatMap] at h
    obtain ⟨c, hc, hP⟩ := h
    obtain ⟨⟨rest, hrest⟩, hlast⟩ := collectLeave_shape_pair.1 c [] P hP
    simp only [List.nil_append] at hrest
    subst hrest
    exact ⟨by simp, hlast, by simpa [hs] using hc⟩

/-- Head of a non-empty list is a member (used to instantiate witnesses). -/
theorem headD_mem_of_not_isEmpty {α : Type} (l : List α) (d : α)
    (h : l.isEmpty = false) : l.headD d ∈ l := by
  cases l with
  | nil => simp at h
  | cons a t => simp

/-- C4 (witness): the amended statement evaluated on the first enumerated
leaf path of the worked example's reference tree. -/
theorem leaf_paths_end_childless_witness :
    (allLeaves refW).headD [] ≠ [] ∧
      (((allLeaves refW).headD []).getLastD dummyNode).subs = none ∧
      ((allLeaves refW).headD []).headD dummyNode ∈ refW.root.subs.getD [] :=
  leaf_paths_end_childless refW _
    (headD_mem_of_not_isEmpty _ _ (by decide))

/-! ## Claim C6 -/

/-- C6 (counterexample).  After a successful insert of `(pathC6, fm1)` into
`treeC6`, repeating the identical insert returns the `NodeExists` error *but
does not leave the tree unchanged*: the repeated label `A` makes the
intermediate "ensure level" steps target a different (earlier pre-order)
`Classi("A")` node the second time, adding fresh `Classi("B")`/`Classi("C")`
nodes before the final leaf step fails. -/
theorem second_insert_tree_changed :
    insert1C6.1 = .ok () ∧ insert2C6.1 = .error .nodeExists ∧
      nodeToStr insert2C6.2.root 0 ≠ nodeToStr insert1C6.2.root 0 := by
  decide

/-- C6 (amended).  Inserting an identical `(path, leaf)` a second time can
yield `NodeExists` while still mutating the tree, so the failed second call
is not guaranteed to leave the tree unchanged.  Concretely, for `treeC6` and
`(pathC6, fm1)`: the first insert succeeds, the second returns `NodeExists`,
and the renderings before/after the second insert show two extra
classification nodes (`B` under the inner `A`, `C` under that `B`). -/
theorem second_identical_insert_mutates :
    insert1C6.1 = .ok () ∧ insert2C6.1 = .error .nodeExists ∧
      nodeToStr insert1C6.2.root 0
        = "C\n  E\n    db2-t2-g1\n  A\n    D\n      db1-t1-f1\nA\n  B\n    C\n" ∧
      nodeToStr insert2C6.2.root 0
        = "C\n  E\n    db2-t2-g1\n  A\n    D\n      db1-t1-f1\n    B\n      C\nA\n  B\n    C\n" := by
  decide

/-! ## Claim C7 -/

/-- C7 (counterexample).  In the worked example the unit for `fm2` has path
`["A","C",""]` — with the trailing empty string contributed by the leaf
segment — not `["A","C"]` as the claim expects. -/
theorem worked_example_unmatched_path :
    ((diff refW candW).map fun u => u.classis) = [["A", "B"], ["A", "C", ""]] ∧
      ((diff refW candW).map fun u => u.classis) ≠ [["A", "B"], ["A", "C"]] := by
  decide

/-- C7 (amended).  Worked example, exactly as the code computes it: two diff
units — `fm1` matched with path `["A","B"]`, `fm2` unmatched with path
`["A","C",""]` (trailing empty string for the leaf segment) — and the
aggregator reports `2` units, `1` matched, overall accuracy `50%` and a
single category `"A"` with 1 of 2 matched (printed as `50.00%`). -/
theorem worked_example_exact :
    diff refW candW
        = [⟨["A", "B"], "db1-t1-f1", true⟩,
           ⟨["A", "C", ""], "field(db1-t1-f2)", false⟩] ∧
      claussiReport (diff refW candW)
        = some ⟨2, 1, some 50, [("A", 2, 1)]⟩ ∧
      categoryLines (reportGroups (diff refW candW)) = [("A", 50)] := by
  have hd : diff refW candW
      = [⟨["A", "B"], "db1-t1-f1", true⟩,
         ⟨["A", "C", ""], "field(db1-t1-f2)", false⟩] := by decide
  have hr : claussiReport (diff refW candW)
      = some ⟨2, 1, some 50, [("A", 2, 1)]⟩ := by
    rw [hd]
    simp +decide [claussiReport, statsFold, updateGroup]
    norm_num
  refine ⟨hd, hr, ?_⟩
  simp +decide [reportGroups, hr, categoryLines]
  norm_num

/-! ## Claim C8 -/

/-- C8 (counterexample).  The per-category lines are printed by iterating a
`std` `HashMap`, whose iteration order is unspecified and randomly seeded per
process, so it is modelled as an arbitrary permutation of the accumulated
group entries.  For `unitsC8` both `[A, B]` and `[B, A]` are admissible
iteration orders, and they produce *different* line sequences — so two runs
need not emit the lines in the same order. -/
theorem category_lines_order_unstable :
    ([("A", (1 : Int), (1 : Int)), ("B", 1, 0)]).Perm (reportGroups unitsC8) ∧
      ([("B", (1 : Int), (0 : Int)), ("A", 1, 1)]).Perm (reportGroups unitsC8) ∧
      categoryLines [("A", 1, 1), ("B", 1, 0)]
        ≠ categoryLines [("B", 1, 0), ("A", 1, 1)] := by
  have hg : reportGroups unitsC8 = [("A", 1, 1), ("B", 1, 0)] := by decide
  refine ⟨by rw [hg], by rw [hg]; exact List.Perm.swap _ _ _, ?_⟩
  simp +decide [categoryLines]

/-- C8 (amended).  What *is* stable is the collection of per-category lines:
for any two enumeration orders of the group map (any permutations of its
entries), the printed line sequences are permutations of each other — same
lines, in an order the `HashMap` is free to change between runs. -/
theorem category_lines_perm_determined (r : List DiffUnit)
    (p1 p2 : List (String × Int × Int))
    (h1 : p1.Perm (reportGroups r)) (h2 : p2.Perm (reportGroups r)) :
    (categoryLines p1).Perm (categoryLines p2) :=
  (h1.trans h2.symm).map _

/-- C8 (witness): the amended statement applied to `unitsC8` and the two
iteration orders of its group map. -/
theorem category_lines_perm_determined_witness :
    (categoryLines [("A", 1, 1), ("B", 1, 0)]).Perm
      (categoryLines [("B", 1, 0), ("A", 1, 1)]) :=
  category_lines_perm_determined unitsC8 _ _
    (by rw [show reportGroups unitsC8 = [("A", 1, 1), ("B", 1, 0)] from by decide])
    (by rw [show reportGroups unitsC8 = [("A", 1, 1), ("B", 1, 0)] from by decide]
        exact List.Perm.swap _ _ _)

/-! ## Claim C9 -/

/-- If no segment of a path resolves to a `Classi` node in the candidate, the
`t_q` accumulator never grows, so every matched unit pushed during the walk
carries the initial (empty) accumulator; in particular each `Field`-resolving
segment contributes a unit whose `classis` is exactly the initial `t_q`. -/
theorem diffWalk_mem_field (cand : ClassiTree) :
    ∀ (P : List ClassiNode) (tq : List String) (b : Bool) (f : FieldMeta)
      (n0 : ClassiNode),
      n0 ∈ P → n0.val = .field f → resolvesToField cand n0 = true →
      (∀ n ∈ P, resolvesToClassi cand n = false) →
      (⟨tq, fieldMetaStr f, true⟩ : DiffUnit) ∈ (diffWalk cand P tq b).1 := by
  intro P
  induction P with
  | nil => intro tq b f n0 h; simp at h
  | cons seg rest ih =>
    intro tq b f n0 hmem hval hres hall
    rcases List.mem_cons.mp hmem with rfl | hmem'
    · have hres' := hres
      unfold resolvesToField at hres'
      cases hF : findNode cand.root n0.val with
      | none => rw [hF] at hres'; simp at hres'
      | some m =>
        rw [hF] at hres'
        have hmv : m.val = ClassiVal.field f := (findNode_val _ _ _ hF).trans hval
        simp [diffWalk, hF, hmv]
    · have hallr : ∀ n ∈ rest, resolvesToClassi cand n = false := fun n hn =>
        hall n (by simp [hn])
      cases hF : findNode cand.root seg.val with
      | none =>
        simp only [diffWalk, hF]
        exact ih tq false f n0 hmem' hval hres hallr
      | some m =>
        cases hcase : m.val with
        | classi c =>
          exfalso
          have hres2 : resolvesToClassi cand seg = true := by
            simp [resolvesToClassi, hF, hcase, isClassiVal]
          have h1 := hall seg (by simp)
          rw [hres2] at h1
          simp at h1
        | field g =>
          simp only [diffWalk, hF, hcase]
          exact List.mem_cons_of_mem _ (ih tq b f n0 hmem' hval hres hallr)
        | root =>
          simp only [diffWalk, hF, hcase]
          exact ih tq b f n0 hmem' hval hres hallr

/-- C9.  (i) Whenever a leaf path has a segment whose `Field` value is found
in the candidate while *no* segment resolves to a `Classi` node (none of the
path's classification labels is present), the walk emits a matched unit with
an *empty* `classis` path.  (ii) Concretely, for reference row `("A")→fm1`
and candidate row `("X")→fm1`, `diff` produces such a unit, and (iii) the
aggregator's grouping then evaluates `unit.classis[0]` on the empty vector —
an out-of-bounds index, embedded as the `none` outcome: the report step is
not total. -/
theorem empty_path_matched_unit_panics :
    (∀ (cand : ClassiTree) (P : List ClassiNode) (f : FieldMeta)
        (n0 : ClassiNode),
        n0 ∈ P → n0.val = .field f → resolvesToField cand n0 = true →
        (∀ n ∈ P, resolvesToClassi cand n = false) →
        (⟨[], fieldMetaStr f, true⟩ : DiffUnit) ∈ diffPath cand P)
      ∧ diff refA1 candX1
          = [⟨[], "db1-t1-f1", true⟩, ⟨["A", ""], "field(db1-t1-f1)", false⟩]
      ∧ claussiReport (diff refA1 candX1) = none := by
  refine ⟨?_, by decide, by decide⟩
  intro cand P f n0 hmem hval hres hall
  have h := diffWalk_mem_field cand P [] true f n0 hmem hval hres hall
  unfold diffPath
  exact List.mem_append_left _ h

/-- C9 (witness): the general part of the statement evaluated on the concrete
leaf path of `refA1` against `candX1`. -/
theorem empty_path_matched_unit_panics_witness :
    (⟨[], "db1-t1-f1", true⟩ : DiffUnit) ∈ diffPath candX1 [nodeA1, leafA1] :=
  empty_path_matched_unit_panics.1 candX1 [nodeA1, leafA1] fm1 leafA1
    (by simp) rfl (by decide) (by decide)

/-! ## Claim C10 -/

/-- A classification-valued segment never resolves to a `Field` node: `find`
returns a node holding the searched value itself. -/
theorem resolvesToField_of_classi (cand : ClassiTree) (n : ClassiNode)
    (h : isClassiVal n.val = true) : resolvesToField cand n = false := by
  cases hnv : n.val with
  | root => rw [hnv] at h; simp [isClassiVal] at h
  | field f => rw [hnv] at h; simp [isClassiVal] at h
  | classi c =>
    cases hF : findNode cand.root n.val with
    | none => simp [resolvesToField, hF]
    | some m =>
      have hmv := findNode_val _ _ _ hF
      rw [hnv] at hF hmv
      simp [resolvesToField, hF, hmv, hnv, isFieldVal]

/-- A field-valued segment resolves to a `Field` node exactly when it is
found at all. -/
theorem resolvesToField_of_field (cand : ClassiTree) (n : ClassiNode)
    (f : FieldMeta) (h : n.val = .field f) :
    resolvesToField cand n = segFound cand n := by
  cases hF : findNode cand.root n.val with
  | none => simp [resolvesToField, segFound, hF]
  | some m =>
    have hmv := findNode_val _ _ _ hF
    rw [h] at hF hmv
    simp [resolvesToField, segFound, hF, hmv, h, isFieldVal]

/-- Per-path behaviour of `diff` on a well-formed leaf path: one or two
units; a matched unit exactly when the leaf's field value is found anywhere
in the candidate; an unmatched unit exactly when some segment is missing. -/
theorem diffPath_wellformed (cand : ClassiTree) (P : List ClassiNode)
    (h : wellPath P = true) :
    (1 ≤ (diffPath cand P).length ∧ (diffPath cand P).length ≤ 2)
      ∧ ((diffPath cand P).any fun u => u.field_exist)
          = segFound cand (P.getLastD dummyNode)
      ∧ ((diffPath cand P).any fun u => !u.field_exist)
          = !(P.all fun n => segFound cand n) := by
  unfold wellPath at h
  rw [Bool.and_eq_true] at h
  obtain ⟨hdrop, hlastf⟩ := h
  rcases List.eq_nil_or_concat P with rfl | ⟨Q, a, rfl⟩
  · simp [dummyNode, isFieldVal, ClassiNode.val] at hlastf
  · simp only [List.concat_eq_append] at hdrop hlastf ⊢
    rw [List.getLastD_concat] at hlastf ⊢
    rw [List.dropLast_concat] at hdrop
    obtain ⟨f, hf⟩ : ∃ f, a.val = ClassiVal.field f := by
      cases hv : a.val with
      | root => rw [hv] at hlastf; simp [isFieldVal] at hlastf
      | classi c => rw [hv] at hlastf; simp [isFieldVal] at hlastf
      | field f => exact ⟨f, rfl⟩
    have hcq : (Q.countP fun n => resolvesToField cand n) = 0 := by
      rw [List.countP_eq_zero]
      intro m hm
      have hmc := List.all_eq_true.mp hdrop m hm
      simp [resolvesToField_of_classi cand m (by simpa using hmc)]
    have hca : ((Q ++ [a]).countP fun n => resolvesToField cand n)
        = if segFound cand a then 1 else 0 := by
      rw [List.countP_append, hcq]
      simp [List.countP_cons, resolvesToField_of_field cand a f hf]
    have hmem_a : a ∈ Q ++ [a] := by simp
    have hr1len : (diffWalk cand (Q ++ [a]) [] true).1.length
        = if segFound cand a then 1 else 0 := by
      rw [diffWalk_length, hca]
    have hflag : (diffWalk cand (Q ++ [a]) [] true).2.2
        = ((Q ++ [a]).all fun n => segFound cand n) := by
      rw [diffWalk_found]; simp
    cases hsf : segFound cand a with
    | false =>
      have hallf : ((Q ++ [a]).all fun n => segFound cand n) = false := by
        cases hall : ((Q ++ [a]).all fun n => segFound cand n) with
        | false => rfl
        | true =>
          have hte := List.all_eq_true.mp hall a hmem_a
          rw [hsf] at hte; simp at hte
      have hr1 : (diffWalk cand (Q ++ [a]) [] true).1 = [] := by
        apply List.length_eq_zero.mp
        rw [hr1len, hsf]
        simp
      have hP : diffPath cand (Q ++ [a]) = [missUnit (Q ++ [a])] := by
        simp only [diffPath]
        rw [hr1, hflag, hallf]
        simp
      refine ⟨?_, ?_, ?_⟩ <;> simp [hP, hsf, hallf, missUnit]
    | true =>
      obtain ⟨u, hu⟩ : ∃ u, (diffWalk cand (Q ++ [a]) [] true).1 = [u] := by
        apply List.length_eq_one.mp
        rw [hr1len, hsf]
        simp
      have huex : u.field_exist = true :=
        diffWalk_units_exist cand (Q ++ [a]) [] true u (by rw [hu]; simp)
      have hPd : diffPath cand (Q ++ [a])
          = u :: (if ((Q ++ [a]).all fun n => segFound cand n) then []
              else [missUnit (Q ++ [a])]) := by
        simp only [diffPath]
        rw [hu, hflag]
        simp
      cases hall : ((Q ++ [a]).all fun n => segFound cand n) with
      | true => refine ⟨?_, ?_, ?_⟩ <;> simp [hPd, hall, huex, hsf]
      | false => refine ⟨?_, ?_, ?_⟩ <;> simp [hPd, hall, huex, hsf, missUnit]

/-- Length bounds for a `flatMap` whose pieces have 1 or 2 elements. -/
theorem flatMap_length_bounds {α β : Type} (l : List α) (f : α → List β)
    (h : ∀ x ∈ l, 1 ≤ (f x).length ∧ (f x).length ≤ 2) :
    l.length ≤ (l.flatMap f).length ∧ (l.flatMap f).length ≤ 2 * l.length := by
  induction l with
  | nil => simp
  | cons a t ih =>
    have ha := h a (by simp)
    have ht := ih fun x hx => h x (by simp [hx])
    simp only [List.flatMap_cons, List.length_append, List.length_cons]
    omega

/-- C10 (amended).  *Provided* every enumerated leaf path of the reference is
well formed — classification segments followed by a final `Field` segment,
which can fail when a label repeats within an inserted path — each path
contributes one or two units: a matched unit iff the leaf's field value
occurs anywhere in the candidate, an unmatched unit iff some segment is
missing; consequently the diff length lies between the number of enumerated
leaves and twice that number.  (Without the proviso a path can contribute
zero units, see the counterexample.) -/
theorem diff_bounds_wellformed (ref cand : ClassiTree)
    (h : ∀ P ∈ allLeaves ref, wellPath P = true) :
    ((allLeaves ref).length ≤ (diff ref cand).length
        ∧ (diff ref cand).length ≤ 2 * (allLeaves ref).length)
      ∧ ∀ P ∈ allLeaves ref,
          (1 ≤ (diffPath cand P).length ∧ (diffPath cand P).length ≤ 2)
          ∧ ((diffPath cand P).any fun u => u.field_exist)
              = segFound cand (P.getLastD dummyNode)
          ∧ ((diffPath cand P).any fun u => !u.field_exist)
              = !(P.all fun n => segFound cand n) := by
  have hper := fun P hP => diffPath_wellformed cand P (h P hP)
  refine ⟨?_, hper⟩
  unfold diff
  exact flatMap_length_bounds _ _ fun P hP => (hper P hP).1

/-- C10 (witness): the amended bounds evaluated on the worked example (2
leaves, diff length 2). -/
theorem diff_bounds_wellformed_witness :
    (allLeaves refW).length ≤ (diff refW candW).length
      ∧ (diff refW candW).length ≤ 2 * (allLeaves refW).length :=
  (diff_bounds_wellformed refW candW (by decide)).1

/-- C10 (counterexample).  The reference built from row `("A","A")→fm1` has
two enumerated leaf paths (the insert itself succeeds), but against a
candidate containing the label `A` and neither field the diff has a single
unit: the degenerate path ending in
the childless `Classi("A")` node has all segments found and no field
segment, so it contributes *zero* units, violating the claimed lower bound
(and the claimed "at least one unit per leaf path"). -/
theorem diff_bounds_violated :
    (treeAddNode treeNew ["A", "A"] fm1).1 = .ok () ∧
      (treeAddNode treeNew ["A"] fmG).1 = .ok () ∧
      (allLeaves refAA).length = 2 ∧ (diff refAA candAG).length = 1 ∧
      ¬ ((allLeaves refAA).length ≤ (diff refAA candAG).length) := by
  decide
